import Mathlib

/-!
Shallow embedding of `llama-term.py` (an interactive LLM command runner) and
proofs about its validation heuristics, conversation loop and execution
recovery.  Python strings are modelled as `List Char`; `str.strip()`,
`str.lower()`, substring tests (`in`) and prefix tests (`startswith`) are
modelled explicitly below.
-/

set_option maxRecDepth 8000

namespace LlamaTerm

/-- Conversion from Lean string literals to the `List Char` model. -/
def str (s : String) : List Char := s.toList

/-- The apostrophe character. -/
def apos : Char := Char.ofNat 39

/-- The backtick character. -/
def btick : Char := Char.ofNat 96

/-- ASCII whitespace removed by Python's `str.strip()`. -/
def isPySpace (c : Char) : Bool :=
  c == ' ' || c == '\t' || c == '\n' || c == '\r' || c == Char.ofNat 11 || c == Char.ofNat 12

/-- Model of Python `str.strip()`: drop whitespace from both ends. -/
def pyStrip (s : List Char) : List Char :=
  ((s.dropWhile isPySpace).reverse.dropWhile isPySpace).reverse

/-- Model of Python `str.lower()` (ASCII range, as used by the program). -/
def pyLower (s : List Char) : List Char := s.map Char.toLower

/-- Model of Python's substring test `pat in s`. -/
def isSubstr (pat : List Char) : List Char → Bool
  | [] => pat.isEmpty
  | c :: rest => pat.isPrefixOf (c :: rest) || isSubstr pat rest

/-- Package-manager keywords from `is_command_for_distro` (source line 43). -/
def pm_keywords : List (List Char) :=
  [str "apt", str "apt-get", str "dpkg", str "pacman", str "dnf", str "yum"]

/-- The `expected_pm` dictionary of `is_command_for_distro` (source lines 44-48),
as a lookup returning `none` for families absent from the dictionary. -/
def expected_pm (family : List Char) : Option (List (List Char)) :=
  if family = str "Ubuntu/Debian-based" then some [str "apt", str "apt-get", str "dpkg"]
  else if family = str "Arch-based" then some [str "pacman"]
  else if family = str "Fedora/RHEL-based" then some [str "dnf", str "yum"]
  else none

/-- Python `any(keyword in s for keyword in keys)`. -/
def containsAny (s : List Char) (keys : List (List Char)) : Bool :=
  keys.any (fun k => isSubstr k s)

/-- Embedding of `is_command_for_distro` (source lines 36-58). -/
def is_command_for_distro (cmd family : List Char) : Bool :=
  let cmd_lower := pyLower cmd
  if containsAny cmd_lower pm_keywords then
    match expected_pm family with
    | some keys => if containsAny cmd_lower keys then true else false
    | none => true
  else true

/-- The `conversation_starters` tuple of `is_valid_command` (source line 143). -/
def conversation_starters : List (List Char) :=
  [str "it ", str "i" ++ [apos, 'm'], str "hello", str "hi", str "sure", str "ok", str "yes"]

/-- Embedding of `is_valid_command` (source lines 136-149). -/
def is_valid_command (cmd0 : List Char) : Bool :=
  let cmd := pyStrip cmd0
  if cmd.isEmpty then false
  else if isSubstr (str "\n") cmd then false
  else
    let lower := pyLower cmd
    if conversation_starters.any (fun st => st.isPrefixOf lower) then false
    else if isSubstr (str "command:") lower || isSubstr (str "output:") lower then false
    else true

/-- Embedding of `execute_command` (source lines 154-163): the outcome of
`subprocess.run` is an oracle, either a return code or a raised exception
message; the function returns `(returncode, None, None)` on completion and
`(-1, None, str(e))` when the spawn raises. -/
def execute_command (spawn : Except (List Char) Int) : Int × Option (List Char) × Option (List Char) :=
  match spawn with
  | Except.ok rc => (rc, none, none)
  | Except.error e => (-1, none, some e)

/-- Semantics of the first regex of `extract_command` (source line 125),
searching left to right for a backtick, a non-empty run of non-backtick
characters, and a closing backtick; the character class matches newlines. -/
def backtickSpan : List Char → Option (List Char)
  | [] => none
  | c :: rest =>
    if c = btick then
      let interior := rest.takeWhile (fun x => x != btick)
      if (rest.dropWhile (fun x => x != btick)).isEmpty then none
      else if interior.isEmpty then backtickSpan rest
      else some interior
    else backtickSpan rest

/-- Three backticks, the delimiter of the second regex of `extract_command`. -/
def triple : List Char := [btick, btick, btick]

/-- Lazy search for the closing delimiter of the triple-backtick regex: the
shortest non-empty interior followed by three backticks. -/
def findTripleClose : List Char → Option (List Char)
  | [] => none
  | c :: rest =>
    if triple.isPrefixOf rest then some [c]
    else (findTripleClose rest).map (fun l => c :: l)

/-- Semantics of the second regex of `extract_command` (source line 128),
searching left to right for a triple backtick followed lazily by a non-empty
interior and a closing triple backtick. -/
def tripleSpan : List Char → Option (List Char)
  | [] => none
  | c :: rest =>
    if triple.isPrefixOf (c :: rest) then
      match findTripleClose ((c :: rest).drop 3) with
      | some interior => some interior
      | none => tripleSpan rest
    else tripleSpan rest

/-- Embedding of `extract_command` (source lines 121-131). -/
def extract_command (response_text : List Char) : List Char :=
  match backtickSpan response_text with
  | some m => pyStrip m
  | none =>
    match tripleSpan response_text with
    | some m => pyStrip m
    | none => []

/-- One already-split line of the streamed generation response: `mal` when the
line is empty or fails JSON parsing (skipped, source lines 104 and 110-112),
otherwise `frag r d` with `r` the value of `data.get("response", "")` and
`d` the value of `data.get("done", False)`. -/
inductive StreamLine
  | mal
  | frag (resp : List Char) (done : Bool)
deriving DecidableEq

/-- The accumulation loop of `query_ollama` (source lines 102-109):
`output_parts` is the accumulator; a fragment is appended before the `done`
flag is tested, and a true flag breaks out of the loop. -/
def query_loop (output_parts : List (List Char)) : List StreamLine → List (List Char)
  | [] => output_parts
  | StreamLine.mal :: rest => query_loop output_parts rest
  | StreamLine.frag r d :: rest =>
    if d then output_parts ++ [r] else query_loop (output_parts ++ [r]) rest

/-- Embedding of the value returned by `query_ollama` on a successfully opened
stream (source line 113): `''.join(output_parts).strip()`. -/
def query_ollama (lines : List StreamLine) : List Char :=
  pyStrip (query_loop [] lines).flatten

/-- Modelled from the claim's reading: the fragments accumulated from the
stream, skipping malformed lines and stopping at a true `done` flag. -/
def specAccumulate : List StreamLine → List (List Char)
  | [] => []
  | StreamLine.mal :: rest => specAccumulate rest
  | StreamLine.frag r d :: rest => r :: (if d then [] else specAccumulate rest)

/-- Answers Python treats as affirmative: `("y", "yes", "")` (source line 255). -/
def yes_answers : List (List Char) := [str "y", str "yes", []]

/-- Embedding of the post-execution remediation flow (source lines 251-282):
`exec n` is the return code of the `(n+1)`-th `execute_command` invocation in
program order and `ans n` the `(n+1)`-th interactive answer; the result is the
list of executed command strings in order plus the final reported return
code. -/
def recovery (cmd : List Char) (exec : Nat → Int) (ans : Nat → List Char) :
    List (List Char) × Int :=
  let rc := exec 0
  if rc ≠ 0 ∧ isSubstr (str "usermod") (pyLower cmd) = true
      ∧ isSubstr (str "docker") (pyLower cmd) = true then
    let create_group := pyLower (pyStrip (ans 0))
    if create_group ∈ yes_answers then
      let rc2 := exec 1
      if rc2 = 0 then
        ([cmd, str "sudo groupadd docker", cmd], exec 2)
      else
        ([cmd, str "sudo groupadd docker"], rc)
    else
      ([cmd], rc)
  else if rc ≠ 0 then
    let sudo_confirm := pyLower (pyStrip (ans 0))
    if sudo_confirm ∈ yes_answers then
      let final2 := if (str "sudo").isPrefixOf (pyStrip cmd) then cmd else str "sudo " ++ cmd
      ([cmd, final2], exec 1)
    else
      ([cmd], rc)
  else
    ([cmd], rc)

/-- How one user request ends: accepted command, user abort, transport
failure, unusable response, or iteration exhaustion. -/
inductive DoneReason
  | accepted
  | aborted
  | noResponse
  | unusable
  | exhausted
deriving DecidableEq

/-- Control position inside the per-request loop of `main` (source lines
185-236): about to query the LLM, waiting for a mismatch clarification
(source lines 199-213), waiting for a question clarification (source lines
219-232), or finished. -/
inductive Phase
  | awaitLLM
  | clarifyMismatch (llmResponse candidate : List Char)
  | clarifyQuestion (llmResponse : List Char)
  | done (r : DoneReason)
deriving DecidableEq

/-- The mutable state of one user request in `main` (source lines 179-184),
plus a counter of performed LLM queries used to observe query activity. -/
structure LoopState where
  history : List (List Char)
  final_command : Option (List Char)
  iteration : Nat
  phase : Phase
  llmCalls : Nat
deriving DecidableEq

/-- External inputs consumed by the request loop: an LLM reply (`none` for a
transport failure of `query_ollama`) or a line typed by the user. -/
inductive Event
  | llm (response : Option (List Char))
  | user (inputLine : List Char)
deriving DecidableEq

/-- Cancellation keywords of the clarification prompts (source lines 203 and
222). -/
def cancel_words : List (List Char) :=
  [str "cancel", str "break", str "exit", str "quit"]

/-- Initial state of one request (source lines 179-183). -/
def init (instr : List Char) : LoopState :=
  { history := [str "User: " ++ instr]
    final_command := none
    iteration := 0
    phase := Phase.awaitLLM
    llmCalls := 0 }

/-- One transition of the request loop of `main` (source lines 185-236).  In
`awaitLLM` with the `while` guard `iteration < max_iterations` false the loop
exits as exhausted without querying the LLM; otherwise the LLM is queried
(consuming an `Event.llm`) and its reply is classified.  In the clarification
phases a user line is consumed and either aborts, is empty (Python `continue`:
back to the top of the `while` loop), or extends the history and increments
the iteration counter.  Events of the kind not consumed by the current phase
leave the state unchanged. -/
def step (family : List Char) (s : LoopState) (e : Event) : LoopState :=
  match s.phase, e with
  | Phase.done _, _ => s
  | Phase.awaitLLM, Event.llm r =>
    if 5 ≤ s.iteration then { s with phase := Phase.done DoneReason.exhausted }
    else
      match r with
      | none => { s with llmCalls := s.llmCalls + 1, phase := Phase.done DoneReason.noResponse }
      | some resp =>
        if resp.isEmpty then
          { s with llmCalls := s.llmCalls + 1, phase := Phase.done DoneReason.noResponse }
        else
          let candidate := extract_command resp
          if candidate.isEmpty = false ∧ is_valid_command candidate = true then
            if is_command_for_distro candidate family = false then
              { s with llmCalls := s.llmCalls + 1, phase := Phase.clarifyMismatch resp candidate }
            else
              { s with llmCalls := s.llmCalls + 1
                       final_command := some candidate
                       history := s.history ++ [str "Assistant: " ++ resp]
                       phase := Phase.done DoneReason.accepted }
          else
            if (pyStrip resp).getLast? = some '?' then
              { s with llmCalls := s.llmCalls + 1, phase := Phase.clarifyQuestion resp }
            else
              { s with llmCalls := s.llmCalls + 1
                       final_command := none
                       phase := Phase.done DoneReason.unusable }
  | Phase.awaitLLM, Event.user _ => s
  | Phase.clarifyMismatch resp _cand, Event.user c0 =>
    let c := pyStrip c0
    if pyLower c ∈ cancel_words then
      { s with final_command := none, phase := Phase.done DoneReason.aborted }
    else if c.isEmpty then
      { s with phase := Phase.awaitLLM }
    else
      { s with history := s.history ++ [str "Assistant (mismatch): " ++ resp, str "User: " ++ c]
               iteration := s.iteration + 1
               phase := Phase.awaitLLM }
  | Phase.clarifyMismatch _ _, Event.llm _ => s
  | Phase.clarifyQuestion resp, Event.user c0 =>
    let c := pyStrip c0
    if pyLower c ∈ cancel_words then
      { s with final_command := none, phase := Phase.done DoneReason.aborted }
    else if c.isEmpty then
      { s with phase := Phase.awaitLLM }
    else
      { s with history := s.history ++ [str "Assistant: " ++ resp, str "User: " ++ c]
               iteration := s.iteration + 1
               phase := Phase.awaitLLM }
  | Phase.clarifyQuestion _, Event.llm _ => s

/-- Iterated transitions of the request loop. -/
def run (family : List Char) (s : LoopState) : List Event → LoopState
  | [] => s
  | e :: es => run family (step family s e) es

/-- A phase awaiting a user clarification line. -/
def IsClarify : Phase → Prop
  | Phase.clarifyMismatch _ _ => True
  | Phase.clarifyQuestion _ => True
  | _ => False

/-- Reachability invariant of the request loop: the iteration counter is
bounded by 5 and strictly below 5 while a clarification is pending, and a
non-`none` final command passed both validity checks and ended the loop as
accepted. -/
def Inv (family : List Char) (s : LoopState) : Prop :=
  s.iteration ≤ 5
  ∧ (∀ r c, s.phase = Phase.clarifyMismatch r c → s.iteration < 5)
  ∧ (∀ r, s.phase = Phase.clarifyQuestion r → s.iteration < 5)
  ∧ (∀ c, s.final_command = some c →
      is_valid_command c = true ∧ is_command_for_distro c family = true
      ∧ s.phase = Phase.done DoneReason.accepted)

lemma query_loop_spec (lines : List StreamLine) : ∀ parts,
    query_loop parts lines = parts ++ specAccumulate lines := by
  induction lines with
  | nil => intro parts; simp [query_loop, specAccumulate]
  | cons l rest ih =>
    intro parts
    cases l with
    | mal => simp [query_loop, specAccumulate, ih]
    | frag r d =>
      cases d with
      | true => simp [query_loop, specAccumulate]
      | false => simp [query_loop, specAccumulate, ih]

lemma specAccumulate_mal (post : List StreamLine) : ∀ pre,
    specAccumulate (pre ++ StreamLine.mal :: post) = specAccumulate (pre ++ post) := by
  intro pre
  induction pre with
  | nil => rfl
  | cons l t ih =>
    cases l with
    | mal => simpa [specAccumulate] using ih
    | frag r d =>
      cases d with
      | true => simp [specAccumulate]
      | false => simpa [specAccumulate] using ih

lemma specAccumulate_done (r : List Char) (rest : List StreamLine) : ∀ pre,
    specAccumulate (pre ++ StreamLine.frag r true :: rest)
      = specAccumulate (pre ++ [StreamLine.frag r true]) := by
  intro pre
  induction pre with
  | nil => rfl
  | cons l t ih =>
    cases l with
    | mal => simpa [specAccumulate] using ih
    | frag r2 d =>
      cases d with
      | true => simp [specAccumulate]
      | false => simpa [specAccumulate] using ih

/-- C8 counterexample: the function returns the stripped concatenation, not
the concatenation itself: one fragment `" hi "` yields `"hi"`. -/
theorem C8_counterexample :
    query_ollama [StreamLine.frag (str " hi ") true] = str "hi"
    ∧ (specAccumulate [StreamLine.frag (str " hi ") true]).flatten = str " hi "
    ∧ str "hi" ≠ str " hi " := by decide

/-- C8 (amended): a malformed line is skipped without discarding later
fragments, consumption stops at the first fragment with a true done flag, and
`query_ollama` returns the whitespace-stripped concatenation of all
accumulated fragments. -/
theorem C8_stream_accumulation (parts : List (List Char))
    (pre post rest lines : List StreamLine) (r : List Char) :
    query_loop parts (pre ++ StreamLine.mal :: post) = query_loop parts (pre ++ post)
    ∧ query_loop parts (pre ++ StreamLine.frag r true :: rest)
        = query_loop parts (pre ++ [StreamLine.frag r true])
    ∧ query_ollama lines = pyStrip (specAccumulate lines).flatten := by
  refine ⟨?_, ?_, ?_⟩
  · rw [query_loop_spec, query_loop_spec, specAccumulate_mal]
  · rw [query_loop_spec, query_loop_spec, specAccumulate_done]
  · unfold query_ollama
    rw [query_loop_spec]
    simp

/-- C7: for a failed command naming both `usermod` and `docker`, an accepted
group creation that succeeds causes exactly one re-run of the original
command with its code reported as-is; a failed group creation or a declined
prompt causes no re-run of the original command. -/
theorem C7_docker_remediation (cmd : List Char) (exec : Nat → Int) (ans : Nat → List Char)
    (hu : isSubstr (str "usermod") (pyLower cmd) = true)
    (hd : isSubstr (str "docker") (pyLower cmd) = true)
    (hrc : exec 0 ≠ 0) :
    (pyLower (pyStrip (ans 0)) ∈ yes_answers → exec 1 = 0 →
      recovery cmd exec ans = ([cmd, str "sudo groupadd docker", cmd], exec 2))
    ∧ (pyLower (pyStrip (ans 0)) ∈ yes_answers → exec 1 ≠ 0 →
      recovery cmd exec ans = ([cmd, str "sudo groupadd docker"], exec 0))
    ∧ (pyLower (pyStrip (ans 0)) ∉ yes_answers →
      recovery cmd exec ans = ([cmd], exec 0)) := by
  refine ⟨?_, ?_, ?_⟩
  · intro h1 h2
    simp [recovery, hu, hd, hrc, h1, h2]
  · intro h1 h2
    simp [recovery, hu, hd, hrc, h1, h2]
  · intro h1
    simp [recovery, hu, hd, hrc, h1]

/-- Witness for C7: a failed `usermod ... docker` command, an accepted prompt
and a successful `groupadd`, giving exactly one re-run. -/
theorem C7_witness :
    recovery (str "sudo usermod -aG docker bob")
        (fun n => if n = 0 then 1 else 0) (fun _ => str "y")
      = ([str "sudo usermod -aG docker bob", str "sudo groupadd docker",
          str "sudo usermod -aG docker bob"], 0) :=
  ((C7_docker_remediation (str "sudo usermod -aG docker bob")
      (fun n => if n = 0 then 1 else 0) (fun _ => str "y")
      (by decide) (by decide) (by decide)).1 (by decide) (by decide)).trans (by decide)

lemma inv_init (family instr : List Char) : Inv family (init instr) := by
  refine ⟨by simp [init], ?_, ?_, ?_⟩
  · intro r c h
    cases h
  · intro r h
    cases h
  · intro c h
    cases h

lemma inv_step (family : List Char) {s : LoopState} (e : Event) (hs : Inv family s) :
    Inv family (step family s e) := by
  obtain ⟨h5, hcm, hcq, hfc⟩ := hs
  obtain ⟨hist, fc, it, ph, calls⟩ := s
  cases ph with
  | done r =>
    cases e with
    | llm r2 => exact ⟨h5, hcm, hcq, hfc⟩
    | user c0 => exact ⟨h5, hcm, hcq, hfc⟩
  | awaitLLM =>
    cases e with
    | user c0 => exact ⟨h5, hcm, hcq, hfc⟩
    | llm r =>
      by_cases hit : 5 ≤ it
      · simp only [step]
        rw [if_pos hit]
        refine ⟨h5, ?_, ?_, ?_⟩
        · intro r1 c1 hcon
          exact Phase.noConfusion hcon
        · intro r1 hcon
          exact Phase.noConfusion hcon
        · intro c hcon
          exact absurd (hfc c hcon).2.2 (fun hx => Phase.noConfusion hx)
      · cases r with
        | none =>
          simp only [step]
          rw [if_neg hit]
          refine ⟨h5, ?_, ?_, ?_⟩
          · intro r1 c1 hcon
            exact Phase.noConfusion hcon
          · intro r1 hcon
            exact Phase.noConfusion hcon
          · intro c hcon
            exact absurd (hfc c hcon).2.2 (fun hx => Phase.noConfusion hx)
        | some resp =>
          simp only [step]
          rw [if_neg hit]
          by_cases hemp : resp.isEmpty = true
          · rw [if_pos hemp]
            refine ⟨h5, ?_, ?_, ?_⟩
            · intro r1 c1 hcon
              exact Phase.noConfusion hcon
            · intro r1 hcon
              exact Phase.noConfusion hcon
            · intro c hcon
              exact absurd (hfc c hcon).2.2 (fun hx => Phase.noConfusion hx)
          · rw [if_neg hemp]
            by_cases hval : (extract_command resp).isEmpty = false
                ∧ is_valid_command (extract_command resp) = true
            · rw [if_pos hval]
              by_cases hdis : is_command_for_distro (extract_command resp) family = false
              · rw [if_pos hdis]
                refine ⟨h5, ?_, ?_, ?_⟩
                · intro r1 c1 hcon
                  show it < 5
                  omega
                · intro r1 hcon
                  exact Phase.noConfusion hcon
                · intro c hcon
                  exact absurd (hfc c hcon).2.2 (fun hx => Phase.noConfusion hx)
              · rw [if_neg hdis]
                refine ⟨h5, ?_, ?_, ?_⟩
                · intro r1 c1 hcon
                  exact Phase.noConfusion hcon
                · intro r1 hcon
                  exact Phase.noConfusion hcon
                · intro c hcon
                  have hc := Option.some.inj hcon
                  subst hc
                  refine ⟨hval.2, ?_, rfl⟩
                  cases hdd : is_command_for_distro (extract_command resp) family with
                  | true => rfl
                  | false => exact absurd hdd hdis
            · rw [if_neg hval]
              by_cases hq : (pyStrip resp).getLast? = some '?'
              · rw [if_pos hq]
                refine ⟨h5, ?_, ?_, ?_⟩
                · intro r1 c1 hcon
                  exact Phase.noConfusion hcon
                · intro r1 hcon
                  show it < 5
                  omega
                · intro c hcon
                  exact absurd (hfc c hcon).2.2 (fun hx => Phase.noConfusion hx)
              · rw [if_neg hq]
                refine ⟨h5, ?_, ?_, ?_⟩
                · intro r1 c1 hcon
                  exact Phase.noConfusion hcon
                · intro r1 hcon
                  exact Phase.noConfusion hcon
                · intro c hcon
                  exact Option.noConfusion hcon
  | clarifyMismatch resp cand =>
    cases e with
    | llm r => exact ⟨h5, hcm, hcq, hfc⟩
    | user c0 =>
      simp only [step]
      by_cases h1 : pyLower (pyStrip c0) ∈ cancel_words
      · rw [if_pos h1]
        refine ⟨h5, ?_, ?_, ?_⟩
        · intro r1 c1 hcon
          exact Phase.noConfusion hcon
        · intro r1 hcon
          exact Phase.noConfusion hcon
        · intro c hcon
          exact Option.noConfusion hcon
      · rw [if_neg h1]
        by_cases h2 : (pyStrip c0).isEmpty = true
        · rw [if_pos h2]
          refine ⟨h5, ?_, ?_, ?_⟩
          · intro r1 c1 hcon
            exact Phase.noConfusion hcon
          · intro r1 hcon
            exact Phase.noConfusion hcon
          · intro c hcon
            exact absurd (hfc c hcon).2.2 (fun hx => Phase.noConfusion hx)
        · rw [if_neg h2]
          have hlt : it < 5 := hcm resp cand rfl
          refine ⟨by show it + 1 ≤ 5; omega, ?_, ?_, ?_⟩
          · intro r1 c1 hcon
            exact Phase.noConfusion hcon
          · intro r1 hcon
            exact Phase.noConfusion hcon
          · intro c hcon
            exact absurd (hfc c hcon).2.2 (fun hx => Phase.noConfusion hx)
  | clarifyQuestion resp =>
    cases e with
    | llm r => exact ⟨h5, hcm, hcq, hfc⟩
    | user c0 =>
      simp only [step]
      by_cases h1 : pyLower (pyStrip c0) ∈ cancel_words
      · rw [if_pos h1]
        refine ⟨h5, ?_, ?_, ?_⟩
        · intro r1 c1 hcon
          exact Phase.noConfusion hcon
        · intro r1 hcon
          exact Phase.noConfusion hcon
        · intro c hcon
          exact Option.noConfusion hcon
      · rw [if_neg h1]
        by_cases h2 : (pyStrip c0).isEmpty = true
        · rw [if_pos h2]
          refine ⟨h5, ?_, ?_, ?_⟩
          · intro r1 c1 hcon
            exact Phase.noConfusion hcon
          · intro r1 hcon
            exact Phase.noConfusion hcon
          · intro c hcon
            exact absurd (hfc c hcon).2.2 (fun hx => Phase.noConfusion hx)
        · rw [if_neg h2]
          have hlt : it < 5 := hcq resp rfl
          refine ⟨by show it + 1 ≤ 5; omega, ?_, ?_, ?_⟩
          · intro r1 c1 hcon
            exact Phase.noConfusion hcon
          · intro r1 hcon
            exact Phase.noConfusion hcon
          · intro c hcon
            exact absurd (hfc c hcon).2.2 (fun hx => Phase.noConfusion hx)

lemma inv_run (family : List Char) : ∀ (es : List Event) (s : LoopState),
    Inv family s → Inv family (run family s es)
  | [], _, hs => hs
  | e :: es, s, hs => inv_run family es (step family s e) (inv_step family e hs)

lemma step_iteration_cases (family : List Char) (s : LoopState) (e : Event) :
    (step family s e).iteration = s.iteration
    ∨ ((step family s e).iteration = s.iteration + 1
        ∧ IsClarify s.phase
        ∧ ∃ c0, e = Event.user c0 ∧ (pyStrip c0).isEmpty = false
            ∧ pyLower (pyStrip c0) ∉ cancel_words) := by
  obtain ⟨hist, fc, it, ph, calls⟩ := s
  cases ph with
  | done r =>
    left
    cases e <;> rfl
  | awaitLLM =>
    cases e with
    | user c0 => left; rfl
    | llm r =>
      left
      simp only [step]
      repeat' split
      all_goals rfl
  | clarifyMismatch resp cand =>
    cases e with
    | llm r => left; rfl
    | user c0 =>
      simp only [step]
      by_cases h1 : pyLower (pyStrip c0) ∈ cancel_words
      · left
        simp [h1]
      · by_cases h2 : (pyStrip c0).isEmpty = true
        · left
          simp [h1, h2]
        · right
          refine ⟨by simp [h1, h2], trivial, c0, rfl, by simpa using h2, h1⟩
  | clarifyQuestion resp =>
    cases e with
    | llm r => left; rfl
    | user c0 =>
      simp only [step]
      by_cases h1 : pyLower (pyStrip c0) ∈ cancel_words
      · left
        simp [h1]
      · by_cases h2 : (pyStrip c0).isEmpty = true
        · left
          simp [h1, h2]
        · right
          refine ⟨by simp [h1, h2], trivial, c0, rfl, by simpa using h2, h1⟩

lemma step_exhausted {family : List Char} {s : LoopState}
    (hph : s.phase = Phase.awaitLLM) (h5 : 5 ≤ s.iteration) (r : Option (List Char)) :
    step family s (Event.llm r) = { s with phase := Phase.done DoneReason.exhausted } := by
  obtain ⟨hist, fc, it, ph, calls⟩ := s
  cases ph with
  | awaitLLM =>
    simp only [step]
    rw [if_pos h5]
  | clarifyMismatch r1 c1 => exact absurd hph (fun hx => Phase.noConfusion hx)
  | clarifyQuestion r1 => exact absurd hph (fun hx => Phase.noConfusion hx)
  | done r1 => exact absurd hph (fun hx => Phase.noConfusion hx)

lemma final_none_of_phase_not_accepted {family : List Char} {s : LoopState}
    (hinv : Inv family s) (h : s.phase ≠ Phase.done DoneReason.accepted) :
    s.final_command = none := by
  cases hfc : s.final_command with
  | none => rfl
  | some c => exact absurd (hinv.2.2.2 c hfc).2.2 h

/-- C1: in the request loop, a non-`none` final command is set only for a
candidate for which `is_valid_command` and `is_command_for_distro` (for the
detected family) both returned true; no other path assigns a final command. -/
theorem C1_final_command_requires_both_checks
    (family instr : List Char) (es : List Event) (c : List Char)
    (h : (run family (init instr) es).final_command = some c) :
    is_valid_command c = true ∧ is_command_for_distro c family = true :=
  ⟨((inv_run family es (init instr) (inv_init family instr)).2.2.2 c h).1,
   ((inv_run family es (init instr) (inv_init family instr)).2.2.2 c h).2.1⟩

/-- Witness for C1: a Debian-appropriate `apt` command is accepted, so it
passed both checks. -/
theorem C1_witness :
    is_valid_command (str "sudo apt install htop") = true
    ∧ is_command_for_distro (str "sudo apt install htop") (str "Ubuntu/Debian-based") = true :=
  C1_final_command_requires_both_checks (str "Ubuntu/Debian-based") (str "install htop")
    [Event.llm (some (str "`sudo apt install htop`"))] (str "sudo apt install htop") (by decide)

/-- C2: the iteration counter starts at 0, is monotone, moves by at most 1,
moves by exactly 1 only on a non-empty non-cancel clarification, never
exceeds 5 on reachable states, and once it reaches 5 in `awaitLLM` the next
turn performs no LLM query and ends the request exhausted with no final
command. -/
theorem C2_iteration_counter_bounds
    (family instr : List Char) (es : List Event) (e : Event) (s : LoopState)
    (hs : s = run family (init instr) es) :
    (init instr).iteration = 0
    ∧ s.iteration ≤ (step family s e).iteration
    ∧ (step family s e).iteration ≤ s.iteration + 1
    ∧ ((step family s e).iteration = s.iteration + 1 →
        IsClarify s.phase
        ∧ ∃ c0, e = Event.user c0 ∧ (pyStrip c0).isEmpty = false
            ∧ pyLower (pyStrip c0) ∉ cancel_words)
    ∧ s.iteration ≤ 5
    ∧ (s.phase = Phase.awaitLLM → 5 ≤ s.iteration → ∀ r,
        (step family s (Event.llm r)).llmCalls = s.llmCalls
        ∧ (step family s (Event.llm r)).phase = Phase.done DoneReason.exhausted
        ∧ (step family s (Event.llm r)).final_command = none) := by
  have hinv : Inv family s := hs ▸ inv_run family es (init instr) (inv_init family instr)
  refine ⟨rfl, ?_, ?_, ?_, hinv.1, ?_⟩
  · rcases step_iteration_cases family s e with h | h
    · omega
    · have := h.1
      omega
  · rcases step_iteration_cases family s e with h | h
    · omega
    · have := h.1
      omega
  · intro h1
    rcases step_iteration_cases family s e with h | h
    · exfalso
      omega
    · exact h.2
  · intro hph hit r
    rw [step_exhausted hph hit r]
    refine ⟨rfl, rfl, ?_⟩
    show s.final_command = none
    exact final_none_of_phase_not_accepted hinv
      (by rw [hph]; exact fun hx => Phase.noConfusion hx)

/-- Witness for C2: five clarification rounds drive the counter to 5; the
next turn ends the request as exhausted. -/
theorem C2_witness :
    (step (str "Arch-based")
        (run (str "Arch-based") (init (str "task"))
          [Event.llm (some (str "Which one?")), Event.user (str "a"),
           Event.llm (some (str "Which one?")), Event.user (str "b"),
           Event.llm (some (str "Which one?")), Event.user (str "c"),
           Event.llm (some (str "Which one?")), Event.user (str "d"),
           Event.llm (some (str "Which one?")), Event.user (str "e")])
        (Event.llm (some (str "anything")))).phase = Phase.done DoneReason.exhausted :=
  ((C2_iteration_counter_bounds (str "Arch-based") (str "task")
      [Event.llm (some (str "Which one?")), Event.user (str "a"),
       Event.llm (some (str "Which one?")), Event.user (str "b"),
       Event.llm (some (str "Which one?")), Event.user (str "c"),
       Event.llm (some (str "Which one?")), Event.user (str "d"),
       Event.llm (some (str "Which one?")), Event.user (str "e")]
      (Event.llm (some (str "anything"))) _ rfl).2.2.2.2.2
    (by decide) (by decide) (some (str "anything"))).2.1

/-- C3 counterexample: with a mismatched `pacman` command under the Debian
family, an empty clarification moves the loop back to `AWAIT_LLM` (it does not
stay in the clarification state), and the next turn queries the LLM again
with unchanged history: the LLM call counter reaches 2. -/
theorem C3_counterexample :
    (run (str "Ubuntu/Debian-based") (init (str "install htop"))
        [Event.llm (some (str "`sudo pacman -S htop`"))]).phase
      = Phase.clarifyMismatch (str "`sudo pacman -S htop`") (str "sudo pacman -S htop")
    ∧ (run (str "Ubuntu/Debian-based") (init (str "install htop"))
        [Event.llm (some (str "`sudo pacman -S htop`")), Event.user []]).phase
      = Phase.awaitLLM
    ∧ (run (str "Ubuntu/Debian-based") (init (str "install htop"))
        [Event.llm (some (str "`sudo pacman -S htop`")), Event.user [],
         Event.llm (some (str "`sudo pacman -S htop`"))]).llmCalls = 2 := by
  refine ⟨by decide, by decide, by decide⟩

/-- C3 (amended): in both clarification states an empty clarification returns
control to `AWAIT_LLM` without consuming an iteration and with history, final
command and LLM-call count unchanged; the next loop turn (when the iteration
bound permits) performs a new LLM invocation rather than re-prompting the
user directly. -/
theorem C3_empty_clarification_returns_to_await
    (family : List Char) (s : LoopState) (resp cand c0 : List Char)
    (hph : s.phase = Phase.clarifyMismatch resp cand ∨ s.phase = Phase.clarifyQuestion resp)
    (hempty : pyStrip c0 = []) :
    step family s (Event.user c0) = { s with phase := Phase.awaitLLM }
    ∧ (s.iteration < 5 → ∀ r,
        (step family { s with phase := Phase.awaitLLM } (Event.llm r)).llmCalls
          = s.llmCalls + 1) := by
  have h1 : ¬ (pyLower (pyStrip c0) ∈ cancel_words) := by
    rw [hempty]
    decide
  have h2 : (pyStrip c0).isEmpty = true := by
    rw [hempty]
    rfl
  obtain ⟨hist, fc, it, ph, calls⟩ := s
  constructor
  · cases ph with
    | awaitLLM =>
      rcases hph with h | h
      · exact absurd h (fun hx => Phase.noConfusion hx)
      · exact absurd h (fun hx => Phase.noConfusion hx)
    | done r1 =>
      rcases hph with h | h
      · exact absurd h (fun hx => Phase.noConfusion hx)
      · exact absurd h (fun hx => Phase.noConfusion hx)
    | clarifyMismatch r1 c1 =>
      simp only [step]
      rw [if_neg h1, if_pos h2]
    | clarifyQuestion r1 =>
      simp only [step]
      rw [if_neg h1, if_pos h2]
  · intro hit r
    have hit' : it < 5 := hit
    simp only [step]
    rw [if_neg (by omega : ¬ 5 ≤ it)]
    cases r with
    | none => rfl
    | some resp2 =>
      repeat' split
      all_goals rfl

/-- Witness for the amended C3 at a concrete mismatch state. -/
theorem C3_witness :
    step (str "Ubuntu/Debian-based")
        (run (str "Ubuntu/Debian-based") (init (str "install htop"))
          [Event.llm (some (str "`sudo pacman -S htop`"))])
        (Event.user [])
      = { run (str "Ubuntu/Debian-based") (init (str "install htop"))
            [Event.llm (some (str "`sudo pacman -S htop`"))] with phase := Phase.awaitLLM } :=
  (C3_empty_clarification_returns_to_await (str "Ubuntu/Debian-based") _
      (str "`sudo pacman -S htop`") (str "sudo pacman -S htop") []
      (Or.inl (by decide)) rfl).1

/-- C4: a response whose extracted candidate is non-empty and passes
`is_valid_command` is treated as a command attempt (accepted, or mismatch
clarification) and never as a clarifying question, regardless of whether the
response ends with a question mark: the question check is only reached when
the command check fails. -/
theorem C4_command_check_precedes_question_check
    (family : List Char) (s : LoopState) (resp : List Char)
    (hph : s.phase = Phase.awaitLLM) (h5 : s.iteration < 5)
    (hcand : (extract_command resp).isEmpty = false)
    (hvalid : is_valid_command (extract_command resp) = true) :
    ((step family s (Event.llm (some resp))).phase = Phase.done DoneReason.accepted
      ∨ (step family s (Event.llm (some resp))).phase
          = Phase.clarifyMismatch resp (extract_command resp))
    ∧ ∀ q, (step family s (Event.llm (some resp))).phase ≠ Phase.clarifyQuestion q := by
  obtain ⟨hist, fc, it, ph, calls⟩ := s
  cases ph with
  | done r1 => exact absurd hph (fun hx => Phase.noConfusion hx)
  | clarifyMismatch r1 c1 => exact absurd hph (fun hx => Phase.noConfusion hx)
  | clarifyQuestion r1 => exact absurd hph (fun hx => Phase.noConfusion hx)
  | awaitLLM =>
    have h5' : it < 5 := h5
    have hresp : ¬ (resp.isEmpty = true) := by
      cases hr : resp with
      | nil =>
        rw [hr] at hcand
        exact absurd hcand (by decide)
      | cons a t => simp
    simp only [step]
    rw [if_neg (by omega : ¬ 5 ≤ it), if_neg hresp, if_pos ⟨hcand, hvalid⟩]
    by_cases hdis : is_command_for_distro (extract_command resp) family = false
    · rw [if_pos hdis]
      exact ⟨Or.inr rfl, fun q hx => Phase.noConfusion hx⟩
    · rw [if_neg hdis]
      exact ⟨Or.inl rfl, fun q hx => Phase.noConfusion hx⟩

/-- Witness for C4: a response that both yields a valid candidate and ends
with a question mark is still classified as a command attempt. -/
theorem C4_witness :
    (step (str "gentoo") (init (str "list files"))
        (Event.llm (some (str "run `ls -la` please?")))).phase
      = Phase.done DoneReason.accepted
    ∨ (step (str "gentoo") (init (str "list files"))
        (Event.llm (some (str "run `ls -la` please?")))).phase
      = Phase.clarifyMismatch (str "run `ls -la` please?")
          (extract_command (str "run `ls -la` please?")) :=
  (C4_command_check_precedes_question_check (str "gentoo") (init (str "list files"))
    (str "run `ls -la` please?") rfl (by decide) (by decide) (by decide)).1

lemma isSubstr_singleton_of_mem {c : Char} {l : List Char} (h : c ∈ l) :
    isSubstr [c] l = true := by
  induction l with
  | nil => cases h
  | cons x rest ih =>
    rcases List.mem_cons.mp h with h1 | h2
    · subst h1
      simp [isSubstr, List.isPrefixOf]
    · simp [isSubstr, ih h2]

/-- C5: `is_command_for_distro` accepts any candidate with no package-manager
keyword; for a candidate with a keyword it accepts a recognized family exactly
when one of that family's expected keywords occurs in the candidate, and
accepts any unrecognized family unconditionally; in particular
`pacman -S foo` is rejected for the Debian family and accepted for an
unrecognized family. -/
theorem C5_distro_filter_characterization (cmd family : List Char) :
    (containsAny (pyLower cmd) pm_keywords = false → is_command_for_distro cmd family = true)
    ∧ (∀ keys, containsAny (pyLower cmd) pm_keywords = true → expected_pm family = some keys →
        (is_command_for_distro cmd family = true ↔ containsAny (pyLower cmd) keys = true))
    ∧ (containsAny (pyLower cmd) pm_keywords = true → expected_pm family = none →
        is_command_for_distro cmd family = true)
    ∧ is_command_for_distro (str "pacman -S foo") (str "Ubuntu/Debian-based") = false
    ∧ is_command_for_distro (str "pacman -S foo") (str "gentoo") = true := by
  refine ⟨?_, ?_, ?_, by decide, by decide⟩
  · intro h
    simp [is_command_for_distro, h]
  · intro keys h1 h2
    cases hc : containsAny (pyLower cmd) keys <;>
      simp [is_command_for_distro, h1, h2, hc]
  · intro h1 h2
    simp [is_command_for_distro, h1, h2]

/-- Witness for C5 at the concrete input `pacman -S foo` / `Arch-based`. -/
theorem C5_witness :
    (is_command_for_distro (str "pacman -S foo") (str "Arch-based") = true ↔
      containsAny (pyLower (str "pacman -S foo")) [str "pacman"] = true) :=
  (C5_distro_filter_characterization (str "pacman -S foo") (str "Arch-based")).2.1
    [str "pacman"] (by decide) (by decide)

/-- C6 counterexample: `"ls\n"` contains a newline, yet `is_valid_command`
returns `true` (the trailing newline is removed by the initial `strip`). -/
theorem C6_counterexample :
    '\n' ∈ str "ls\n" ∧ is_valid_command (str "ls\n") = true := by decide

/-- C6 (amended): every candidate whose whitespace-stripped form still contains
a newline is rejected by `is_valid_command`. -/
theorem C6_stripped_newline_invalid (s : List Char) (h : '\n' ∈ pyStrip s) :
    is_valid_command s = false := by
  have h1 : isSubstr (str "\n") (pyStrip s) = true := by
    have he : str "\n" = ['\n'] := rfl
    rw [he]
    exact isSubstr_singleton_of_mem h
  have h2 : (pyStrip s).isEmpty = false := by
    cases hp : pyStrip s with
    | nil => rw [hp] at h; cases h
    | cons a t => rfl
  simp [is_valid_command, h1, h2]

/-- Witness for the amended C6 at a candidate with an interior newline. -/
theorem C6_witness :
    ('\n' ∈ pyStrip (str "echo a\necho b"))
    ∧ is_valid_command (str "echo a\necho b") = false :=
  ⟨by decide, C6_stripped_newline_invalid (str "echo a\necho b") (by decide)⟩

lemma takeWhile_all_append {p : Char → Bool} {c : List Char} (d : Char) (b : List Char)
    (hc : ∀ x ∈ c, p x = true) (hd : p d = false) :
    (c ++ d :: b).takeWhile p = c := by
  induction c with
  | nil => simp [List.takeWhile_cons, hd]
  | cons x t ih =>
    have hx : p x = true := hc x (List.mem_cons_self x t)
    simp only [List.cons_append, List.takeWhile_cons, hx, if_true]
    rw [ih (fun y hy => hc y (List.mem_cons_of_mem x hy))]

lemma dropWhile_all_append {p : Char → Bool} {c : List Char} (d : Char) (b : List Char)
    (hc : ∀ x ∈ c, p x = true) (hd : p d = false) :
    (c ++ d :: b).dropWhile p = d :: b := by
  induction c with
  | nil => simp [List.dropWhile_cons, hd]
  | cons x t ih =>
    have hx : p x = true := hc x (List.mem_cons_self x t)
    simp only [List.cons_append, List.dropWhile_cons, hx, if_true]
    exact ih (fun y hy => hc y (List.mem_cons_of_mem x hy))

lemma backtickSpan_append_of_no_btick {a : List Char} (rest : List Char)
    (ha : ∀ x ∈ a, x ≠ btick) :
    backtickSpan (a ++ rest) = backtickSpan rest := by
  induction a with
  | nil => rfl
  | cons x t ih =>
    have hx : x ≠ btick := ha x (List.mem_cons_self x t)
    rw [List.cons_append, backtickSpan, if_neg hx]
    exact ih (fun y hy => ha y (List.mem_cons_of_mem x hy))

lemma backtickSpan_open {c : List Char} (b : List Char)
    (hne : c ≠ []) (hc : ∀ x ∈ c, x ≠ btick) :
    backtickSpan (btick :: (c ++ btick :: b)) = some c := by
  have htw : (c ++ btick :: b).takeWhile (fun x => x != btick) = c :=
    takeWhile_all_append _ _ (fun x hx => by simp [hc x hx]) (by simp)
  have hdw : (c ++ btick :: b).dropWhile (fun x => x != btick) = btick :: b :=
    dropWhile_all_append _ _ (fun x hx => by simp [hc x hx]) (by simp)
  have hce : c.isEmpty = false := by
    cases c with
    | nil => exact absurd rfl hne
    | cons x t => rfl
  rw [backtickSpan, if_pos rfl]
  simp [htw, hdw, hce]

lemma backtickSpan_btick_btick (rest : List Char) :
    backtickSpan (btick :: btick :: rest) = backtickSpan (btick :: rest) := by
  conv_lhs => rw [backtickSpan]
  rw [if_pos rfl]
  simp [List.takeWhile_cons, List.dropWhile_cons]

lemma backtickSpan_first_span {a c : List Char} (b : List Char)
    (ha : ∀ x ∈ a, x ≠ btick) (hne : c ≠ []) (hc : ∀ x ∈ c, x ≠ btick) :
    backtickSpan (a ++ btick :: (c ++ btick :: b)) = some c := by
  rw [backtickSpan_append_of_no_btick _ ha, backtickSpan_open b hne hc]

lemma backtickSpan_triple_block {a c : List Char} (b : List Char)
    (ha : ∀ x ∈ a, x ≠ btick) (hne : c ≠ []) (hc : ∀ x ∈ c, x ≠ btick) :
    backtickSpan (a ++ triple ++ c ++ triple ++ b) = some c := by
  have hsh : a ++ triple ++ c ++ triple ++ b
      = a ++ (btick :: btick :: btick :: (c ++ btick :: (btick :: btick :: b))) := by
    simp [triple, List.append_assoc]
  rw [hsh, backtickSpan_append_of_no_btick _ ha, backtickSpan_btick_btick,
    backtickSpan_btick_btick, backtickSpan_open _ hne hc]

lemma head?_dropWhile {p : Char → Bool} : ∀ {l : List Char} {x : Char},
    (l.dropWhile p).head? = some x → p x = false := by
  intro l
  induction l with
  | nil => intro x h; cases h
  | cons a t ih =>
    intro x h
    rw [List.dropWhile_cons] at h
    by_cases hp : p a
    · rw [if_pos hp] at h
      exact ih h
    · rw [if_neg hp] at h
      injection h with h
      subst h
      simpa using hp

lemma dropWhile_eq_self_of_head {p : Char → Bool} {l : List Char}
    (h : ∀ x, l.head? = some x → p x = false) : l.dropWhile p = l := by
  cases l with
  | nil => rfl
  | cons a t =>
    rw [List.dropWhile_cons, if_neg]
    simp [h a rfl]

lemma dropWhile_idem {p : Char → Bool} (l : List Char) :
    (l.dropWhile p).dropWhile p = l.dropWhile p :=
  dropWhile_eq_self_of_head (fun _ hx => head?_dropWhile hx)

lemma getLast?_dropWhile {p : Char → Bool} : ∀ (l : List Char),
    l.dropWhile p ≠ [] → (l.dropWhile p).getLast? = l.getLast? := by
  intro l
  induction l with
  | nil => intro h; exact absurd rfl h
  | cons a t ih =>
    intro h
    rw [List.dropWhile_cons] at h ⊢
    by_cases hp : p a
    · rw [if_pos hp] at h ⊢
      have ht : t ≠ [] := by
        intro he
        subst he
        exact h rfl
      rw [ih h]
      cases t with
      | nil => exact absurd rfl ht
      | cons bb u => rw [List.getLast?_cons_cons]
    · rw [if_neg hp]

lemma pyStrip_idem (l : List Char) : pyStrip (pyStrip l) = pyStrip l := by
  by_cases hv0 : (l.dropWhile isPySpace).reverse.dropWhile isPySpace = []
  · unfold pyStrip
    rw [hv0]
    simp
  · unfold pyStrip
    have h1 : ((l.dropWhile isPySpace).reverse.dropWhile isPySpace).reverse.dropWhile isPySpace
        = ((l.dropWhile isPySpace).reverse.dropWhile isPySpace).reverse := by
      apply dropWhile_eq_self_of_head
      intro x hx
      rw [List.head?_reverse, getLast?_dropWhile _ hv0, List.getLast?_reverse] at hx
      exact head?_dropWhile hx
    rw [h1, List.reverse_reverse, dropWhile_idem]

/-- C9: `extract_command` returns the trimmed content of the first span
between two backticks with a non-empty backtick-free interior, this pattern
matches across newlines, a sole triple-backtick block with a backtick-free
body is captured by that same single-backtick rule, and every returned string
is already whitespace-trimmed. -/
theorem C9_extract_command_first_span
    (a c b a2 c2 b2 s : List Char)
    (ha : ∀ x ∈ a, x ≠ btick) (hne : c ≠ []) (hc : ∀ x ∈ c, x ≠ btick)
    (ha2 : ∀ x ∈ a2, x ≠ btick) (hne2 : c2 ≠ []) (hc2 : ∀ x ∈ c2, x ≠ btick) :
    extract_command (a ++ btick :: (c ++ btick :: b)) = pyStrip c
    ∧ extract_command (a2 ++ triple ++ c2 ++ triple ++ b2) = pyStrip c2
    ∧ pyStrip (extract_command s) = extract_command s := by
  refine ⟨?_, ?_, ?_⟩
  · simp [extract_command, backtickSpan_first_span b ha hne hc]
  · unfold extract_command
    rw [backtickSpan_triple_block b2 ha2 hne2 hc2]
  · cases h1 : backtickSpan s with
    | some m => simp [extract_command, h1, pyStrip_idem]
    | none =>
      cases h2 : tripleSpan s with
      | some m => simp [extract_command, h1, h2, pyStrip_idem]
      | none =>
        simp only [extract_command, h1, h2]
        rfl

/-- Witness for C9: a single-backtick span containing a newline, a whole
triple-backtick block, and trim-idempotence on a span-free response. -/
theorem C9_witness :
    extract_command (str "Use " ++ btick :: (str " ls -la\nls " ++ btick :: str " now"))
      = pyStrip (str " ls -la\nls ")
    ∧ extract_command (str "Run:\n" ++ triple ++ str "\napt update\n" ++ triple ++ str "")
      = pyStrip (str "\napt update\n")
    ∧ pyStrip (extract_command (str "no spans here")) = extract_command (str "no spans here") :=
  C9_extract_command_first_span _ _ _ _ _ _ _
    (by decide) (by decide) (by decide) (by decide) (by decide) (by decide)

/-- C10: `execute_command` is total over spawn outcomes: it returns the
shell's return code on normal completion, and `-1` with the error message when
process creation raises, never propagating the exception. -/
theorem C10_execute_command_total (spawn : Except (List Char) Int) :
    (∀ rc, spawn = Except.ok rc → execute_command spawn = (rc, none, none))
    ∧ (∀ e, spawn = Except.error e → execute_command spawn = (-1, none, some e)) := by
  constructor
  · intro rc h
    subst h
    rfl
  · intro e h
    subst h
    rfl

/-- Witness for C10 at a completed run and at a raised exception. -/
theorem C10_witness :
    execute_command (Except.ok 0) = (0, none, none)
    ∧ execute_command (Except.error (str "boom")) = (-1, none, some (str "boom")) :=
  ⟨(C10_execute_command_total (Except.ok 0)).1 0 rfl,
   (C10_execute_command_total (Except.error (str "boom"))).2 (str "boom") rfl⟩

end LlamaTerm
